import Mathlib

set_option autoImplicit false

/-!
Verification of the alko-mcp data-acquisition and retrieval engine.

The TypeScript sources are shallowly embedded: JavaScript strings are
modelled as `List Char` (a JS string is a sequence of code units), pure
functions become Lean functions, the Firestore document store becomes an
explicit keyed map threaded through the operations, and wall-clock
timestamps become `Nat` parameters.  `String.prototype.toLowerCase` is
modelled by `Char.toLower` (they agree on the ASCII data used in all
concrete evaluations), `String.prototype.includes` by `includes`,
`split(/\s+/).filter(w => w.length > 0)` by `wordsOf`, and
`Array.prototype.sort` (a stable comparison sort per the ECMAScript
specification) by a stable insertion sort.  The Finnish-locale
`localeCompare` comparator is an external collaborator and is passed in
as an explicit parameter wherever the code uses it.
-/

/-- A JavaScript string, modelled as its list of characters. -/
abbrev JStr := List Char

/-- Embed a Lean string literal as a `JStr`. -/
def js (s : String) : JStr := s.data

/-- Models `String.prototype.toLowerCase` (per-character lowering;
agrees with the JS function on ASCII input). -/
def jsToLower (s : JStr) : JStr := s.map Char.toLower

/-- Tests whether `needle` occurs at the start of `hay`. -/
def prefixB : JStr → JStr → Bool
  | [], _ => true
  | _ :: _, [] => false
  | a :: as, b :: bs => a == b && prefixB as bs

/-- Models `hay.includes(needle)` from JavaScript: `needle` occurs
contiguously somewhere in `hay` (always true for the empty needle). -/
def includes (hay needle : JStr) : Bool :=
  match hay with
  | [] => prefixB needle []
  | _ :: t => prefixB needle hay || includes t needle

/-- Asserts that `n` is a contiguous segment of `h`. -/
def SubSeg (n h : JStr) : Prop := ∃ l r, h = l ++ n ++ r

theorem prefixB_iff (n h : JStr) : prefixB n h = true ↔ ∃ r, h = n ++ r := by
  induction n generalizing h with
  | nil => simp [prefixB]
  | cons a as ih =>
    cases h with
    | nil => simp [prefixB]
    | cons b bs =>
      simp only [prefixB, Bool.and_eq_true, beq_iff_eq, ih, List.cons_append,
        List.cons.injEq]
      constructor
      · rintro ⟨rfl, r, rfl⟩; exact ⟨r, rfl, rfl⟩
      · rintro ⟨r, rfl, rfl⟩; exact ⟨rfl, r, rfl⟩

theorem includes_iff (h n : JStr) : includes h n = true ↔ SubSeg n h := by
  induction h with
  | nil =>
    simp only [includes, prefixB_iff, SubSeg]
    constructor
    · rintro ⟨r, hr⟩
      exact ⟨[], r, by simpa using hr⟩
    · rintro ⟨l, r, hr⟩
      refine ⟨r, ?_⟩
      have hl : l = [] := by
        cases l with
        | nil => rfl
        | cons x xs => simp at hr
      subst hl; simpa using hr
  | cons c t ih =>
    simp only [includes, Bool.or_eq_true, prefixB_iff, ih, SubSeg]
    constructor
    · rintro (⟨r, hr⟩ | ⟨l, r, hr⟩)
      · exact ⟨[], r, by simpa using hr⟩
      · exact ⟨c :: l, r, by simp [hr]⟩
    · rintro ⟨l, r, hr⟩
      cases l with
      | nil => exact Or.inl ⟨r, by simpa using hr⟩
      | cons x xs =>
        simp only [List.cons_append, List.cons.injEq] at hr
        exact Or.inr ⟨xs, r, hr.2⟩

theorem SubSeg.refl (s : JStr) : SubSeg s s := ⟨[], [], by simp⟩

theorem SubSeg.trans {a b c : JStr} (h1 : SubSeg a b) (h2 : SubSeg b c) :
    SubSeg a c := by
  obtain ⟨l1, r1, rfl⟩ := h1
  obtain ⟨l2, r2, rfl⟩ := h2
  exact ⟨l2 ++ l1, r1 ++ r2, by simp⟩

theorem SubSeg.map (f : Char → Char) {a b : JStr} (h : SubSeg a b) :
    SubSeg (a.map f) (b.map f) := by
  obtain ⟨l, r, rfl⟩ := h
  exact ⟨l.map f, r.map f, by simp⟩

theorem includes_refl (s : JStr) : includes s s = true :=
  (includes_iff s s).mpr (SubSeg.refl s)

/-- Models the composite `s.split(/\s+/).filter(w => w.length > 0)`:
the maximal whitespace-free words of `s`, via an accumulator. -/
def wordsAux : JStr → JStr → List JStr
  | [], acc => if acc = [] then [] else [acc.reverse]
  | c :: rest, acc =>
    if c.isWhitespace then
      (if acc = [] then wordsAux rest [] else acc.reverse :: wordsAux rest [])
    else wordsAux rest (c :: acc)

/-- The whitespace-separated words of a JS string, as produced by
`split(/\s+/)` followed by dropping empty pieces. -/
def wordsOf (s : JStr) : List JStr := wordsAux s []

theorem wordsAux_mem_subSeg {s acc : JStr} {w : JStr}
    (hw : w ∈ wordsAux s acc) : SubSeg w (acc.reverse ++ s) := by
  induction s generalizing acc with
  | nil =>
    by_cases h : acc = [] <;> simp [wordsAux, h] at hw
    subst hw
    exact ⟨[], [], by simp⟩
  | cons c rest ih =>
    by_cases hws : c.isWhitespace
    · by_cases h : acc = []
      · simp only [wordsAux, if_pos hws, if_pos h] at hw
        have := ih hw
        simp only [List.reverse_nil, List.nil_append] at this
        obtain ⟨l, r, hr⟩ := this
        exact ⟨acc.reverse ++ c :: l, r, by simp [hr]⟩
      · simp only [wordsAux, if_pos hws, if_neg h, List.mem_cons] at hw
        rcases hw with rfl | hw
        · exact ⟨[], c :: rest, by simp⟩
        · have := ih hw
          simp only [List.reverse_nil, List.nil_append] at this
          obtain ⟨l, r, hr⟩ := this
          exact ⟨acc.reverse ++ c :: l, r, by simp [hr]⟩
    · simp only [wordsAux, if_neg hws] at hw
      have := ih hw
      simpa using this

/-- Every word produced by the split is a contiguous segment of the
original string. -/
theorem wordsOf_subSeg {s w : JStr} (hw : w ∈ wordsOf s) : SubSeg w s := by
  have hw2 : w ∈ wordsAux s [] := hw
  have := wordsAux_mem_subSeg hw2
  simpa using this

theorem char_ofNat_toNat (n : Nat) (h : n < 55296) : (Char.ofNat n).toNat = n := by
  have hv : Nat.isValidChar n := Or.inl h
  simp [Char.ofNat, Char.ofNatAux, dif_pos hv, Char.toNat, UInt32.toNat]

theorem char_toLower_idem (c : Char) : c.toLower.toLower = c.toLower := by
  have he : ∀ x : Char,
      x.toLower = if x.toNat ≥ 65 ∧ x.toNat ≤ 90 then Char.ofNat (x.toNat + 32) else x :=
    fun _ => rfl
  by_cases h : c.toNat ≥ 65 ∧ c.toNat ≤ 90
  · have h2 : c.toLower.toNat = c.toNat + 32 := by
      rw [he c, if_pos h]; exact char_ofNat_toNat _ (by omega)
    rw [he c.toLower, if_neg (by omega)]
  · have h3 : c.toLower = c := by rw [he c]; exact if_neg h
    rw [h3]; exact h3

theorem jsToLower_idem (s : JStr) : jsToLower (jsToLower s) = jsToLower s := by
  simp only [jsToLower, List.map_map]
  exact List.map_congr_left fun c _ => char_toLower_idem c

/-- Stable insertion of `x` into `l` with respect to the boolean
"may come before" relation `le`: `x` goes in front of the first element
it may precede.  Together with `sortBy` this models the observable
behaviour of `Array.prototype.sort`, which ECMAScript requires to be a
stable comparison sort. -/
def insertLe {α : Type} (le : α → α → Bool) (x : α) : List α → List α
  | [] => [x]
  | y :: t => if le x y then x :: y :: t else y :: insertLe le x t

/-- Stable insertion sort; models `Array.prototype.sort(comparator)`
with `le a b` meaning `comparator(a, b) <= 0`. -/
def sortBy {α : Type} (le : α → α → Bool) : List α → List α
  | [] => []
  | x :: t => insertLe le x (sortBy le t)

theorem insertLe_perm {α : Type} (le : α → α → Bool) (x : α) (l : List α) :
    (insertLe le x l).Perm (x :: l) := by
  induction l with
  | nil => exact List.Perm.refl _
  | cons y t ih =>
    by_cases h : le x y
    · simp [insertLe, h]
    · simp only [insertLe, if_neg h]
      exact ((ih.cons y).trans (List.Perm.swap x y t))

theorem sortBy_perm {α : Type} (le : α → α → Bool) (l : List α) :
    (sortBy le l).Perm l := by
  induction l with
  | nil => exact List.Perm.refl _
  | cons x t ih =>
    exact (insertLe_perm le x (sortBy le t)).trans (ih.cons x)

theorem pairwise_insertLe {α : Type} {le : α → α → Bool}
    (htot : ∀ a b, (le a b || le b a) = true)
    (htrans : ∀ a b c, le a b = true → le b c = true → le a c = true)
    {x : α} {l : List α}
    (hl : l.Pairwise (fun a b => le a b = true)) :
    (insertLe le x l).Pairwise (fun a b => le a b = true) := by
  induction l with
  | nil => simp [insertLe]
  | cons y t ih =>
    rcases List.pairwise_cons.mp hl with ⟨hy, ht⟩
    by_cases h : le x y = true
    · simp only [insertLe, if_pos h]
      refine List.pairwise_cons.mpr ⟨?_, hl⟩
      intro b hb
      rcases List.mem_cons.mp hb with rfl | hb
      · exact h
      · exact htrans x y b h (hy b hb)
    · have hyx : le y x = true := by
        have := htot x y
        simp only [Bool.or_eq_true] at this
        tauto
      simp only [insertLe, if_neg h]
      refine List.pairwise_cons.mpr ⟨?_, ih ht⟩
      intro b hb
      have hb' : b ∈ x :: t := ((insertLe_perm le x t).mem_iff).mp hb
      rcases List.mem_cons.mp hb' with rfl | hb'
      · exact hyx
      · exact hy b hb'

theorem pairwise_sortBy {α : Type} {le : α → α → Bool}
    (htot : ∀ a b, (le a b || le b a) = true)
    (htrans : ∀ a b c, le a b = true → le b c = true → le a c = true)
    (l : List α) :
    (sortBy le l).Pairwise (fun a b => le a b = true) := by
  induction l with
  | nil => simp [sortBy]
  | cons x t ih => exact pairwise_insertLe htot htrans ih


namespace Alko

/-- The `Product` entity from `src/types/product.ts`, restricted to the
fields consulted by the operations modelled here (search scoring and
matching, smokiness filters, and the sync timestamps).  The remaining
scalar fields of the source interface (ean, bottle size, packaging,
vintage, energy, …) are carried through all modelled operations
unchanged and uninspected, so they are elided.  Nullable fields are
`Option`; `createdAt`/`updatedAt` are Firestore `Timestamp`s, modelled
as `Nat` clock ticks. -/
structure Product where
  id : JStr
  name : JStr
  producer : JStr
  price : Int
  type : JStr
  subtype : Option JStr
  country : JStr
  region : Option JStr
  description : Option JStr
  grapes : Option JStr
  smokiness : Option Nat
  alcoholPercentage : Int
  createdAt : Nat
  updatedAt : Nat
deriving DecidableEq, Repr

/-- The `otherFields` array built inside
`FirestoreService.calculateRelevanceScore`:
`[country, region, type, subtype, description, grapes].filter(Boolean).map(toLowerCase)`.
JS string truthiness drops both `null` and the empty string. -/
def otherFields (p : Product) : List JStr :=
  (([some p.country, p.region, some p.type, p.subtype, p.description,
      p.grapes].filterMap id).filter (fun f => !f.isEmpty)).map jsToLower

/-- The `for (const field of otherFields)` loop at the end of
`calculateRelevanceScore`: the first field containing the exact phrase
scores 40, the first field containing every word scores 30, checked
field by field; the fall-through baseline is 20. -/
def scoreOtherFields (queryLower : JStr) (queryWords : List JStr) :
    List JStr → Nat
  | [] => 20
  | f :: rest =>
    if includes f queryLower then 40
    else if queryWords.all (fun w => includes f w) then 30
    else scoreOtherFields queryLower queryWords rest

/-- Models `FirestoreService.calculateRelevanceScore`
(src/services/firestore.ts, lines 54–99). -/
def calculateRelevanceScore (p : Product) (queryLower : JStr)
    (queryWords : List JStr) : Nat :=
  let nameLower := jsToLower p.name
  let producerLower := jsToLower p.producer
  if includes nameLower queryLower then 100
  else if queryWords.all (fun w => includes nameLower w) then 80
  else if includes producerLower queryLower then 60
  else if queryWords.all (fun w => includes producerLower w) then 50
  else scoreOtherFields queryLower queryWords (otherFields p)

/-- Models `Array.prototype.join(sep)`. -/
def joinWith (sep : JStr) : List JStr → JStr
  | [] => []
  | [x] => x
  | x :: y :: rest => x ++ sep ++ joinWith sep (y :: rest)

/-- The `searchableText` built inside `searchProducts`:
`[name, producer, country, region, type, subtype, description, grapes]
.filter(Boolean).join(' ').toLowerCase()`. -/
def searchableText (p : Product) : JStr :=
  jsToLower (joinWith (js (" "))
    (([some p.name, some p.producer, some p.country, p.region, some p.type,
        p.subtype, p.description, p.grapes].filterMap id).filter
      (fun f => !f.isEmpty)))

/-- The candidate filter of the text-search branch: every query word
must occur somewhere in the combined searchable text. -/
def textMatches (p : Product) (queryWords : List JStr) : Bool :=
  queryWords.all (fun w => includes (searchableText p) w)

/-- The sort comparator of the text-search branch, as a boolean
"may come before" relation: `searchLe cmp a b` holds exactly when the
JS comparator `(a, b) => b.score !== a.score ? b.score - a.score :
a.product.name.localeCompare(b.product.name, 'fi')` returns a value
`<= 0`.  `cmp` is the external Finnish-locale comparator. -/
def searchLe (cmp : JStr → JStr → Int) (a b : Product × Nat) : Bool :=
  if a.2 ≠ b.2 then decide (b.2 < a.2)
  else decide (cmp a.1.name b.1.name ≤ 0)

/-- The text-search branch of `FirestoreService.searchProducts`
(src/services/firestore.ts, lines 159–195): lower-case the query, split
it into words, keep the candidates matching every word, score them, and
stable-sort by score descending then name ascending. -/
def textSearch (cmp : JStr → JStr → Int) (q : JStr)
    (products : List Product) : List Product :=
  let queryLower := jsToLower q
  let queryWords := wordsOf queryLower
  let matched := products.filter (fun p => textMatches p queryWords)
  let scored := matched.map
    (fun p => (p, calculateRelevanceScore p queryLower queryWords))
  (sortBy (searchLe cmp) scored).map Prod.fst

/-- The `ProductSearchResult` shape returned by `searchProducts`. -/
structure ProductSearchResult where
  products : List Product
  total : Nat
  limit : Nat
  offset : Nat
  hasMore : Bool
deriving DecidableEq, Repr

/-- The client-side smokiness range filters of `searchProducts`
(lines 197–203): items with `smokiness === null` are dropped by either
bound. -/
def applySmokinessFilters (minS maxS : Option Nat)
    (products : List Product) : List Product :=
  let p1 := match minS with
    | some m => products.filter (fun p =>
        match p.smokiness with
        | some s => decide (m ≤ s)
        | none => false)
    | none => products
  match maxS with
  | some m => p1.filter (fun p =>
      match p.smokiness with
      | some s => decide (s ≤ m)
      | none => false)
  | none => p1

/-- The post-Firestore part of `FirestoreService.searchProducts`
(lines 159–218): optional text search (a present but empty query string
is falsy in JS and skips the branch), client-side smokiness filters,
then `total`/slice/`hasMore` pagination.  `fetched` is the list the
Firestore query returned. -/
def searchProducts (cmp : JStr → JStr → Int) (query : Option JStr)
    (minS maxS : Option Nat) (lim off : Nat)
    (fetched : List Product) : ProductSearchResult :=
  let afterText := match query with
    | some q =>
      if q.isEmpty then fetched
      else
        let queryLower := jsToLower q
        let queryWords := wordsOf queryLower
        let matched := fetched.filter (fun p => textMatches p queryWords)
        (sortBy (searchLe cmp) (matched.map
          (fun p => (p, calculateRelevanceScore p queryLower queryWords)))).map
          Prod.fst
    | none => fetched
  let products := applySmokinessFilters minS maxS afterText
  let total := products.length
  let paginatedProducts := (products.drop off).take lim
  { products := paginatedProducts, total := total, limit := lim, offset := off,
    hasMore := decide (total > off + lim) }

/-- The post-filter match list of a search invocation, described
independently of the pagination step: text search (when a non-empty
query is present) followed by the smokiness filters. -/
def postFilterList (cmp : JStr → JStr → Int) (query : Option JStr)
    (minS maxS : Option Nat) (fetched : List Product) : List Product :=
  let afterText := match query with
    | some q => if q.isEmpty then fetched else textSearch cmp q fetched
    | none => fetched
  applySmokinessFilters minS maxS afterText

/-- A concrete byte-wise lexicographic comparator; stands in for the
external `localeCompare(..., 'fi')` collaborator in concrete
evaluations (the two agree on the ASCII names used in them). -/
def byteCmp : JStr → JStr → Int
  | [], [] => 0
  | [], _ :: _ => -1
  | _ :: _, [] => 1
  | a :: as, b :: bs =>
    if a.toNat < b.toNat then -1
    else if b.toNat < a.toNat then 1
    else byteCmp as bs

/-- A product with every modelled field empty; concrete examples are
built by updating it. -/
def baseProduct : Product where
  id := []
  name := []
  producer := []
  price := 0
  type := []
  subtype := none
  country := []
  region := none
  description := none
  grapes := none
  smokiness := none
  alcoholPercentage := 0
  createdAt := 0
  updatedAt := 0

end Alko

namespace Alko

/-- Claim C1's reading of the scoring rules as a flat priority list: the
40/30 rules quantify over "any other single searchable field" before
falling back to 30 for "all words in that same single field", i.e. an
exact-phrase match in any later field would beat an all-words match in
an earlier one. -/
def claimedScoreC1 (p : Product) (queryLower : JStr)
    (queryWords : List JStr) : Nat :=
  if includes (jsToLower p.name) queryLower then 100
  else if queryWords.all (fun w => includes (jsToLower p.name) w) then 80
  else if includes (jsToLower p.producer) queryLower then 60
  else if queryWords.all (fun w => includes (jsToLower p.producer) w) then 50
  else if (otherFields p).any (fun f => includes f queryLower) then 40
  else if (otherFields p).any
      (fun f => queryWords.all (fun w => includes f w)) then 30
  else 20

/-- The score of the first rule of `rules` whose condition holds, with
fall-through default `deflt`. -/
def firstRuleScore (deflt : Nat) : List (Bool × Nat) → Nat
  | [] => deflt
  | r :: rest => if r.1 then r.2 else firstRuleScore deflt rest

/-- The amended priority order for C1: the four name/producer rules,
followed by a 40/30 rule pair per remaining searchable field in the
fixed field order country, region, type, subtype, description, grapes. -/
def amendedRulesC1 (p : Product) (queryLower : JStr)
    (queryWords : List JStr) : List (Bool × Nat) :=
  [(includes (jsToLower p.name) queryLower, 100),
   (queryWords.all (fun w => includes (jsToLower p.name) w), 80),
   (includes (jsToLower p.producer) queryLower, 60),
   (queryWords.all (fun w => includes (jsToLower p.producer) w), 50)] ++
  ((otherFields p).map (fun f =>
    [(includes f queryLower, 40),
     (queryWords.all (fun w => includes f w), 30)])).flatten

/-- The product witnessing C1's failure: its `country` contains both
query words (but not the phrase), while its `region` contains the exact
phrase; the code's field-by-field loop stops at `country` with 30,
whereas the claim's flat priority order would award 40 for the phrase
in `region`. -/
def c1Product : Product :=
  { baseProduct with
    name := js ("x"), producer := js ("y"),
    country := js ("b a"), region := some (js ("a b")) }

theorem scoreOtherFields_eq_firstRule (ql : JStr) (qw : List JStr)
    (fields : List JStr) :
    scoreOtherFields ql qw fields =
      firstRuleScore 20 ((fields.map (fun f =>
        [(includes f ql, 40), (qw.all (fun w => includes f w), 30)])).flatten) := by
  induction fields with
  | nil => rfl
  | cons f rest ih =>
    simp only [scoreOtherFields, List.map_cons, List.flatten_cons,
      List.cons_append, List.nil_append, firstRuleScore]
    by_cases h1 : includes f ql
    · simp [h1]
    · by_cases h2 : qw.all (fun w => includes f w) <;> simp [h1, h2, ih]

end Alko

namespace Alko

/-- C1 (counterexample).  At the concrete product whose `country`
contains both query words "a" and "b" only separately and whose
`region` contains the exact phrase "a b", `calculateRelevanceScore`
returns 30 (the field-by-field loop stops at `country`), while the
claimed flat priority order — exact phrase in *any* other single field
before all-words-in-a-single-field — yields 40; so the claim's rule
order does not compute the assigned score. -/
theorem claim_c1_counterexample :
    textMatches c1Product (wordsOf (jsToLower (js ("a b")))) = true ∧
    calculateRelevanceScore c1Product (jsToLower (js ("a b")))
      (wordsOf (jsToLower (js ("a b")))) = 30 ∧
    claimedScoreC1 c1Product (jsToLower (js ("a b")))
      (wordsOf (jsToLower (js ("a b")))) = 40 := by
  decide

/-- C1 (amended).  For every catalog item and every query, the
relevance score is the first matching rule of the fixed priority order
in which the 40/30 rules are paired per remaining field, in the fixed
field order country, region, type, subtype, description, grapes — an
exact-phrase match in a later field does not override an all-words
match in an earlier field — with baseline 20. -/
theorem claim_c1_amended (p : Product) (queryLower : JStr)
    (queryWords : List JStr) :
    calculateRelevanceScore p queryLower queryWords =
      firstRuleScore 20 (amendedRulesC1 p queryLower queryWords) := by
  unfold calculateRelevanceScore amendedRulesC1
  simp only [List.cons_append, List.nil_append, firstRuleScore]
  split_ifs with h1 h2 h3 h4 <;> try rfl
  exact scoreOtherFields_eq_firstRule queryLower queryWords (otherFields p)

end Alko

namespace Alko

theorem scoreOtherFields_le (ql : JStr) (qw : List JStr) (fields : List JStr) :
    scoreOtherFields ql qw fields ≤ 40 := by
  induction fields with
  | nil => simp [scoreOtherFields]
  | cons f rest ih =>
    simp only [scoreOtherFields]
    split_ifs <;> omega

/-- Every relevance score the code assigns is at most 100. -/
theorem calculateRelevanceScore_le (p : Product) (ql : JStr)
    (qw : List JStr) : calculateRelevanceScore p ql qw ≤ 100 := by
  simp only [calculateRelevanceScore]
  split_ifs <;> first
    | omega
    | exact le_trans (scoreOtherFields_le ql qw (otherFields p)) (by omega)

theorem mem_joinWith_subSeg (sep : JStr) {x : JStr} {l : List JStr}
    (hx : x ∈ l) : SubSeg x (joinWith sep l) := by
  induction l with
  | nil => simp at hx
  | cons y rest ih =>
    rcases List.mem_cons.mp hx with rfl | hx
    · cases rest with
      | nil => exact SubSeg.refl x
      | cons z zs =>
        exact ⟨[], sep ++ joinWith sep (z :: zs), by simp [joinWith]⟩
    · cases rest with
      | nil => simp at hx
      | cons z zs =>
        refine SubSeg.trans (ih hx) ⟨y ++ sep, [], ?_⟩
        simp [joinWith]

theorem searchLe_total (cmp : JStr → JStr → Int)
    (htot : ∀ a b, cmp a b ≤ 0 ∨ cmp b a ≤ 0) (a b : Product × Nat) :
    (searchLe cmp a b || searchLe cmp b a) = true := by
  simp only [searchLe]
  by_cases h : a.2 = b.2
  · rw [if_neg (fun hh : a.2 ≠ b.2 => hh h),
      if_neg (fun hh : b.2 ≠ a.2 => hh h.symm)]
    simp only [Bool.or_eq_true, decide_eq_true_eq]
    exact htot a.1.name b.1.name
  · have h' : b.2 ≠ a.2 := fun hh => h hh.symm
    rw [if_pos h, if_pos h']
    simp only [Bool.or_eq_true, decide_eq_true_eq]
    omega

theorem searchLe_trans (cmp : JStr → JStr → Int)
    (htrans : ∀ a b c, cmp a b ≤ 0 → cmp b c ≤ 0 → cmp a c ≤ 0)
    (a b c : Product × Nat) (h1 : searchLe cmp a b = true)
    (h2 : searchLe cmp b c = true) : searchLe cmp a c = true := by
  simp only [searchLe] at h1 h2 ⊢
  by_cases hab : a.2 = b.2 <;> by_cases hbc : b.2 = c.2
  · have hac : a.2 = c.2 := hab.trans hbc
    rw [if_neg (fun hh : a.2 ≠ b.2 => hh hab)] at h1
    rw [if_neg (fun hh : b.2 ≠ c.2 => hh hbc)] at h2
    rw [if_neg (fun hh : a.2 ≠ c.2 => hh hac)]
    exact decide_eq_true
      (htrans _ _ _ (of_decide_eq_true h1) (of_decide_eq_true h2))
  · rw [if_neg (fun hh : a.2 ≠ b.2 => hh hab)] at h1
    rw [if_pos hbc] at h2
    have hc : c.2 < b.2 := of_decide_eq_true h2
    have hac : a.2 ≠ c.2 := by omega
    rw [if_pos hac]
    exact decide_eq_true (by omega)
  · rw [if_pos hab] at h1
    rw [if_neg (fun hh : b.2 ≠ c.2 => hh hbc)] at h2
    have hb : b.2 < a.2 := of_decide_eq_true h1
    have hac : a.2 ≠ c.2 := by omega
    rw [if_pos hac]
    exact decide_eq_true (by omega)
  · rw [if_pos hab] at h1
    rw [if_pos hbc] at h2
    have hb : b.2 < a.2 := of_decide_eq_true h1
    have hc : c.2 < b.2 := of_decide_eq_true h2
    have hac : a.2 ≠ c.2 := by omega
    rw [if_pos hac]
    exact decide_eq_true (by omega)

/-- Unfolds `textSearch` to its sorted-scored-pairs form. -/
theorem textSearch_eq (cmp : JStr → JStr → Int) (q : JStr)
    (products : List Product) :
    textSearch cmp q products =
      (sortBy (searchLe cmp)
        ((products.filter
            (fun p => textMatches p (wordsOf (jsToLower q)))).map
          (fun p => (p, calculateRelevanceScore p (jsToLower q)
            (wordsOf (jsToLower q)))))).map Prod.fst := rfl

end Alko

namespace Alko

/-- The product named "Viina" used by C2. -/
def c2ViinaProduct : Product :=
  { baseProduct with
    id := js ("1"), name := js ("Viina") }

/-- The product named "Aa Viina" used by C2: its name contains the
phrase "viina", so it also scores 100 for that query, and its name
precedes "Viina" in any reasonable collation. -/
def c2AaViinaProduct : Product :=
  { baseProduct with
    id := js ("2"), name := js ("Aa Viina") }

/-- The two-item catalog of C2's counterexample. -/
def c2Catalog : List Product := [c2ViinaProduct, c2AaViinaProduct]

/-- C2 (amended).  For every item `I` and a query equal to `I.name`
case-folded, `I` scores 100 and appears in the search output, and every
item placed before `I` in the output also scores 100 — so `I` heads the
result up to ties within the maximal score group, which are broken by
the locale comparator on names; `I` need not be the literal first
element.  The comparator `cmp` (the external `localeCompare('fi')`
collaborator) is assumed total and transitive on `<= 0`. -/
theorem claim_c2_amended (cmp : JStr → JStr → Int) (catalog : List Product)
    (I : Product)
    (htot : ∀ a b, cmp a b ≤ 0 ∨ cmp b a ≤ 0)
    (htrans : ∀ a b c, cmp a b ≤ 0 → cmp b c ≤ 0 → cmp a c ≤ 0)
    (hmem : I ∈ catalog) (hname : I.name ≠ []) :
    calculateRelevanceScore I (jsToLower (jsToLower I.name))
      (wordsOf (jsToLower (jsToLower I.name))) = 100 ∧
    I ∈ textSearch cmp (jsToLower I.name) catalog ∧
    (∀ l1 l2, textSearch cmp (jsToLower I.name) catalog = l1 ++ I :: l2 →
      ∀ p ∈ l1, calculateRelevanceScore p (jsToLower (jsToLower I.name))
        (wordsOf (jsToLower (jsToLower I.name))) = 100) := by
  set q := jsToLower I.name with hq
  have hql : jsToLower q = q := jsToLower_idem I.name
  have hscoreI : calculateRelevanceScore I (jsToLower q)
      (wordsOf (jsToLower q)) = 100 := by
    simp only [calculateRelevanceScore]
    rw [hql, ← hq, includes_refl]
    simp
  have hmatch : textMatches I (wordsOf (jsToLower q)) = true := by
    simp only [textMatches, List.all_eq_true]
    intro w hw
    have hsub1 : SubSeg w q := by
      have := wordsOf_subSeg hw
      rwa [hql] at this
    have hfield : I.name ∈ (([some I.name, some I.producer, some I.country,
        I.region, some I.type, I.subtype, I.description,
        I.grapes].filterMap id).filter (fun f => !f.isEmpty)) := by
      apply List.mem_filter.mpr
      refine ⟨List.mem_filterMap.mpr ⟨some I.name, List.mem_cons_self _ _, rfl⟩, ?_⟩
      simp [hname]
    have hsub2 : SubSeg q (searchableText I) := by
      have hjoin := mem_joinWith_subSeg (js (" ")) hfield
      have := SubSeg.map Char.toLower hjoin
      simpa [searchableText, jsToLower, hq] using this
    exact (includes_iff _ _).mpr (SubSeg.trans hsub1 hsub2)
  refine ⟨hscoreI, ?_, ?_⟩
  · rw [textSearch_eq]
    refine List.mem_map.mpr ⟨(I, calculateRelevanceScore I (jsToLower q)
      (wordsOf (jsToLower q))), ?_, rfl⟩
    exact ((sortBy_perm _ _).mem_iff).mpr
      (List.mem_map.mpr ⟨I, List.mem_filter.mpr ⟨hmem, hmatch⟩, rfl⟩)
  · intro l1 l2 hdec p hp
    rw [textSearch_eq] at hdec
    obtain ⟨m1, m2', hsorted_eq, hm1, hm2'⟩ := List.map_eq_append_iff.mp hdec
    obtain ⟨pr, m2, hm2'eq, hprI, hm2⟩ := List.map_eq_cons_iff.mp hm2'
    subst hm2'eq
    have hPairwise := pairwise_sortBy (searchLe_total cmp htot)
      (searchLe_trans cmp htrans)
      ((catalog.filter (fun p => textMatches p (wordsOf (jsToLower q)))).map
        (fun p => (p, calculateRelevanceScore p (jsToLower q)
          (wordsOf (jsToLower q)))))
    rw [hsorted_eq] at hPairwise
    rw [← hm1] at hp
    obtain ⟨x, hxm1, hxp⟩ := List.mem_map.mp hp
    have hx_sorted : x ∈ m1 ++ pr :: m2 := List.mem_append.mpr (Or.inl hxm1)
    rw [← hsorted_eq] at hx_sorted
    have hx_scored := ((sortBy_perm _ _).mem_iff).mp hx_sorted
    obtain ⟨px, hpx_mem, hpx_eq⟩ := List.mem_map.mp hx_scored
    have hx2 : x.2 = calculateRelevanceScore x.1 (jsToLower q)
        (wordsOf (jsToLower q)) := by
      rw [← hpx_eq]
    have hpr_sorted : pr ∈ m1 ++ pr :: m2 :=
      List.mem_append.mpr (Or.inr (List.mem_cons_self _ _))
    rw [← hsorted_eq] at hpr_sorted
    have hpr_scored := ((sortBy_perm _ _).mem_iff).mp hpr_sorted
    obtain ⟨pp, hpp_mem, hpp_eq⟩ := List.mem_map.mp hpr_scored
    have hpr2 : pr.2 = 100 := by
      have h1 : pr.1 = pp := by rw [← hpp_eq]
      have h2 : pr.2 = calculateRelevanceScore pp (jsToLower q)
          (wordsOf (jsToLower q)) := by rw [← hpp_eq]
      rw [h2, ← h1, hprI]
      exact hscoreI
    rcases List.pairwise_append.mp hPairwise with ⟨_, _, hcross⟩
    have hle : searchLe cmp x pr = true :=
      hcross x hxm1 pr (List.mem_cons_self _ _)
    have hx100 : x.2 = 100 := by
      by_contra hne
      rw [searchLe, if_pos (by rw [hpr2]; exact hne)] at hle
      have hlt : pr.2 < x.2 := of_decide_eq_true hle
      have hub := calculateRelevanceScore_le x.1 (jsToLower q)
        (wordsOf (jsToLower q))
      rw [hpr2] at hlt
      omega
    rw [← hxp, ← hx2]
    exact hx100

/-- Witness for C2's amended theorem at the one-item catalog containing
the product named "Viina", with the degenerate (everything ties)
comparator. -/
theorem claim_c2_amended_witness :
    calculateRelevanceScore c2ViinaProduct
      (jsToLower (jsToLower c2ViinaProduct.name))
      (wordsOf (jsToLower (jsToLower c2ViinaProduct.name))) = 100 ∧
    c2ViinaProduct ∈ textSearch (fun _ _ => (0 : Int))
      (jsToLower c2ViinaProduct.name) [c2ViinaProduct] ∧
    (∀ l1 l2, textSearch (fun _ _ => (0 : Int))
        (jsToLower c2ViinaProduct.name) [c2ViinaProduct] = l1 ++ c2ViinaProduct :: l2 →
      ∀ p ∈ l1, calculateRelevanceScore p
        (jsToLower (jsToLower c2ViinaProduct.name))
        (wordsOf (jsToLower (jsToLower c2ViinaProduct.name))) = 100) :=
  claim_c2_amended (fun _ _ => 0) [c2ViinaProduct] c2ViinaProduct
    (fun _ _ => Or.inl (le_refl 0)) (fun _ _ _ _ _ => le_refl 0)
    (List.mem_cons_self _ _) (by decide)

/-- C2 (counterexample).  In the catalog containing "Viina" and
"Aa Viina", the query "viina" (the case-folded name of "Viina") also
scores 100 for "Aa Viina", whose name precedes in the tie-breaking name
order, so "Viina" is not the first element of the result — refuting the
claim that every item ranks first for its own case-folded name.  The
concrete comparator is byte-wise; the Finnish locale comparator agrees
on these ASCII names. -/
theorem claim_c2_counterexample :
    c2ViinaProduct ∈ c2Catalog ∧
    jsToLower c2ViinaProduct.name = js ("viina") ∧
    (textSearch byteCmp (jsToLower c2ViinaProduct.name) c2Catalog).head? =
      some c2AaViinaProduct ∧
    c2AaViinaProduct ≠ c2ViinaProduct := by
  decide

end Alko

namespace Alko

/-- A 57-item catalog (pairwise distinguished by their creation tick)
used for C3's concrete pagination scenario; no text query and no
smokiness filters are applied, so all 57 items survive filtering. -/
def c3Catalog : List Product :=
  (List.range 57).map (fun i => { baseProduct with createdAt := i })

/-- C3.  Every search invocation returns exactly the slice
`[offset, offset+limit)` of the post-filter match list, reports the
post-filter count as `total`, and sets `hasMore` exactly when
`total > offset + limit`; in particular, with 57 matches, limit 20 and
offset 40 give a 17-item page with `hasMore = false`, and offset 20
gives a 20-item page with `hasMore = true`. -/
theorem claim_c3_pagination :
    (∀ (cmp : JStr → JStr → Int) (query : Option JStr)
      (minS maxS : Option Nat) (lim off : Nat) (fetched : List Product),
      searchProducts cmp query minS maxS lim off fetched =
        { products :=
            ((postFilterList cmp query minS maxS fetched).drop off).take lim,
          total := (postFilterList cmp query minS maxS fetched).length,
          limit := lim, offset := off,
          hasMore := decide
            ((postFilterList cmp query minS maxS fetched).length > off + lim) }) ∧
    (searchProducts byteCmp none none none 20 40 c3Catalog).total = 57 ∧
    (searchProducts byteCmp none none none 20 40 c3Catalog).products.length = 17 ∧
    (searchProducts byteCmp none none none 20 40 c3Catalog).hasMore = false ∧
    (searchProducts byteCmp none none none 20 20 c3Catalog).products.length = 20 ∧
    (searchProducts byteCmp none none none 20 20 c3Catalog).hasMore = true := by
  have hgen : ∀ (cmp : JStr → JStr → Int) (query : Option JStr)
      (minS maxS : Option Nat) (lim off : Nat) (fetched : List Product),
      searchProducts cmp query minS maxS lim off fetched =
        { products :=
            ((postFilterList cmp query minS maxS fetched).drop off).take lim,
          total := (postFilterList cmp query minS maxS fetched).length,
          limit := lim, offset := off,
          hasMore := decide
            ((postFilterList cmp query minS maxS fetched).length > off + lim) } := by
    intro cmp query minS maxS lim off fetched
    cases query with
    | none => rfl
    | some q => rfl
  have hlen : c3Catalog.length = 57 := by simp [c3Catalog]
  have hpost : ∀ lim off : Nat, postFilterList byteCmp none none none c3Catalog = c3Catalog :=
    fun _ _ => rfl
  refine ⟨hgen, ?_, ?_, ?_, ?_, ?_⟩
  · rw [hgen]; simp [postFilterList, applySmokinessFilters, hlen]
  · rw [hgen]
    simp only [postFilterList, applySmokinessFilters, List.length_take,
      List.length_drop, hlen]
    decide
  · rw [hgen]
    simp only [postFilterList, applySmokinessFilters, hlen]
    decide
  · rw [hgen]
    simp only [postFilterList, applySmokinessFilters, List.length_take,
      List.length_drop, hlen]
    decide
  · rw [hgen]
    simp only [postFilterList, applySmokinessFilters, hlen]
    decide

end Alko

namespace Alko

/-- The `products` collection of the Firestore store, as a keyed map. -/
def ProductStore : Type := JStr → Option Product

/-- A single document write (`batch.set` target and payload, applied at
commit time). -/
def setDoc (s : ProductStore) (key : JStr) (p : Product) : ProductStore :=
  fun k => if k = key then some p else s k

/-- The payload `upsertProducts` stages for one product, after reading
the committed store `s`: an existing document keeps its stored
`createdAt` and gets a fresh `updatedAt`; a new document gets both
timestamps set to now (src/services/firestore.ts, lines 233–254). -/
def upsertWrite (now : Nat) (s : ProductStore) (p : Product) : Product :=
  match s p.id with
  | some existing => { p with createdAt := existing.createdAt, updatedAt := now }
  | none => { p with createdAt := now, updatedAt := now }

/-- The inner `for (const product of chunk)` loop of `upsertProducts`:
every read (`ref.get()`) sees the committed store `s` — a staged
`batch.set` is not visible before `batch.commit()` — and the loop
counts one "added" per missing document and one "updated" per existing
document.  Returns (staged writes in order, added, updated). -/
def stageChunk (now : Nat) (s : ProductStore) :
    List Product → List (JStr × Product) × Nat × Nat
  | [] => ([], 0, 0)
  | p :: rest =>
    let next := stageChunk now s rest
    ((p.id, upsertWrite now s p) :: next.1,
     (if (s p.id).isSome then next.2.1 else next.2.1 + 1),
     (if (s p.id).isSome then next.2.2 + 1 else next.2.2))

/-- Models `batch.commit()`: apply the staged writes in order (a later write
to the same key wins). -/
def commitBatch (s : ProductStore) (writes : List (JStr × Product)) :
    ProductStore :=
  writes.foldl (fun st w => setDoc st w.1 w.2) s

/-- Models `FirestoreService.upsertProducts` (src/services/firestore.ts, lines
224–262): process the input in chunks of `BATCH_SIZE = 500`, staging
each chunk against the state committed so far, committing it, and
accumulating the added/updated counters.  Returns
(final store, added, updated). -/
def upsertProducts (now : Nat) (s : ProductStore) (products : List Product) :
    ProductStore × Nat × Nat :=
  match products with
  | [] => (s, 0, 0)
  | p :: rest =>
    let chunk := (p :: rest).take 500
    let staged := stageChunk now s chunk
    let s' := commitBatch s staged.1
    let next := upsertProducts now s' ((p :: rest).drop 500)
    (next.1, staged.2.1 + next.2.1, staged.2.2 + next.2.2)
termination_by products.length
decreasing_by simp only [List.length_drop, List.length_cons]; omega

theorem upsertProducts_nil (now : Nat) (s : ProductStore) :
    upsertProducts now s [] = (s, 0, 0) := by rw [upsertProducts.eq_def]

theorem upsertProducts_cons (now : Nat) (s : ProductStore) (p : Product)
    (rest : List Product) :
    upsertProducts now s (p :: rest) =
      let chunk := (p :: rest).take 500
      let staged := stageChunk now s chunk
      let s' := commitBatch s staged.1
      let next := upsertProducts now s' ((p :: rest).drop 500)
      (next.1, staged.2.1 + next.2.1, staged.2.2 + next.2.2) := by
  rw [upsertProducts.eq_def]

theorem setDoc_self (s : ProductStore) (k : JStr) (p : Product) :
    setDoc s k p k = some p := by simp [setDoc]

theorem setDoc_ne (s : ProductStore) (k : JStr) (p : Product) {k' : JStr}
    (h : k' ≠ k) : setDoc s k p k' = s k' := by simp [setDoc, h]

theorem commitBatch_not_mem {writes : List (JStr × Product)} {id : JStr}
    (h : id ∉ writes.map Prod.fst) (s : ProductStore) :
    commitBatch s writes id = s id := by
  induction writes generalizing s with
  | nil => rfl
  | cons w ws ih =>
    simp only [List.map_cons, List.mem_cons, not_or] at h
    show commitBatch (setDoc s w.1 w.2) ws id = s id
    rw [ih h.2, setDoc_ne _ _ _ h.1]

theorem commitBatch_mem {writes : List (JStr × Product)} {k : JStr}
    {v : Product} (hnd : (writes.map Prod.fst).Nodup)
    (hmem : (k, v) ∈ writes) (s : ProductStore) :
    commitBatch s writes k = some v := by
  induction writes generalizing s with
  | nil => simp at hmem
  | cons w ws ih =>
    simp only [List.map_cons, List.nodup_cons] at hnd
    rcases List.mem_cons.mp hmem with heq | hmem'
    · show commitBatch (setDoc s w.1 w.2) ws k = some v
      have hk : k = w.1 := by rw [← heq]
      have : k ∉ ws.map Prod.fst := by rw [hk]; exact hnd.1
      rw [commitBatch_not_mem this, hk, ← heq]
      exact setDoc_self _ _ _
    · exact ih hnd.2 hmem' _

theorem stageChunk_fst_map (now : Nat) (s : ProductStore)
    (chunk : List Product) :
    (stageChunk now s chunk).1.map Prod.fst = chunk.map Product.id := by
  induction chunk with
  | nil => rfl
  | cons p rest ih => simp [stageChunk, ih]

theorem stageChunk_mem (now : Nat) (s : ProductStore) {p : Product}
    {chunk : List Product} (hp : p ∈ chunk) :
    (p.id, upsertWrite now s p) ∈ (stageChunk now s chunk).1 := by
  induction chunk with
  | nil => simp at hp
  | cons q rest ih =>
    rcases List.mem_cons.mp hp with rfl | hp'
    · exact List.mem_cons_self _ _
    · exact List.mem_cons_of_mem _ (ih hp')

theorem stageChunk_counts (now : Nat) (s : ProductStore)
    (chunk : List Product) :
    (stageChunk now s chunk).2.1 =
      (chunk.filter (fun p => (s p.id).isNone)).length ∧
    (stageChunk now s chunk).2.2 =
      (chunk.filter (fun p => (s p.id).isSome)).length := by
  induction chunk with
  | nil => exact ⟨rfl, rfl⟩
  | cons p rest ih =>
    by_cases h : (s p.id).isSome
    · have hn : ((s p.id).isNone : Bool) = false := by
        cases hv : s p.id <;> simp [hv] at h ⊢
      simp [stageChunk, h, hn, List.filter_cons, ih.1, ih.2]
    · have hn : ((s p.id).isNone : Bool) = true := by
        cases hv : s p.id <;> simp [hv] at h ⊢
      have h' : ((s p.id).isSome : Bool) = false := by
        cases hv : s p.id <;> simp [hv] at h ⊢
      simp [stageChunk, h', hn, List.filter_cons, ih.1, ih.2]

theorem upsertWrite_congr (now : Nat) {s s' : ProductStore} (p : Product)
    (h : s' p.id = s p.id) : upsertWrite now s' p = upsertWrite now s p := by
  simp only [upsertWrite, h]

theorem upsertWrite_updatedAt (now : Nat) (s : ProductStore) (p : Product) :
    (upsertWrite now s p).updatedAt = now := by
  cases hv : s p.id <;> simp [upsertWrite, hv]

end Alko

namespace Alko

theorem upsertProducts_cons_eq (now : Nat) (s : ProductStore) (p : Product)
    (rest : List Product) :
    upsertProducts now s (p :: rest) =
      ((upsertProducts now
          (commitBatch s (stageChunk now s ((p :: rest).take 500)).1)
          ((p :: rest).drop 500)).1,
       (stageChunk now s ((p :: rest).take 500)).2.1 +
         (upsertProducts now
           (commitBatch s (stageChunk now s ((p :: rest).take 500)).1)
           ((p :: rest).drop 500)).2.1,
       (stageChunk now s ((p :: rest).take 500)).2.2 +
         (upsertProducts now
           (commitBatch s (stageChunk now s ((p :: rest).take 500)).1)
           ((p :: rest).drop 500)).2.2) :=
  upsertProducts_cons now s p rest

/-- Full behaviour of the batched upsert when the input ids are
pairwise distinct (as the parsed price-list rows are): every input
product ends up stored as its staged write against the initial store,
untouched ids are unchanged, and the counters partition the input by
whether the id already existed. -/
theorem upsertProducts_spec (now : Nat) :
    ∀ (n : Nat) (s : ProductStore) (ps : List Product), ps.length ≤ n →
    (ps.map Product.id).Nodup →
    (∀ p ∈ ps, (upsertProducts now s ps).1 p.id = some (upsertWrite now s p)) ∧
    (∀ id, id ∉ ps.map Product.id → (upsertProducts now s ps).1 id = s id) ∧
    (upsertProducts now s ps).2.1 =
      (ps.filter (fun p => (s p.id).isNone)).length ∧
    (upsertProducts now s ps).2.2 =
      (ps.filter (fun p => (s p.id).isSome)).length := by
  intro n
  induction n with
  | zero =>
    intro s ps hlen hnd
    have hps : ps = [] := List.length_eq_zero.mp (Nat.le_zero.mp hlen)
    subst hps
    refine ⟨?_, ?_, ?_, ?_⟩ <;> simp [upsertProducts_nil]
  | succ n ih =>
    intro s ps hlen hnd
    cases ps with
    | nil => refine ⟨?_, ?_, ?_, ?_⟩ <;> simp [upsertProducts_nil]
    | cons p rest =>
      have hsplit : p :: rest = (p :: rest).take 500 ++ (p :: rest).drop 500 :=
        (List.take_append_drop 500 (p :: rest)).symm
      have hmapsplit : (p :: rest).map Product.id =
          ((p :: rest).take 500).map Product.id ++
            ((p :: rest).drop 500).map Product.id := by
        rw [← List.map_append, ← hsplit]
      rw [hmapsplit] at hnd
      obtain ⟨hndc, hndd, hdisj⟩ := List.nodup_append.mp hnd
      have hs'_mem : ∀ q ∈ (p :: rest).take 500,
          commitBatch s (stageChunk now s ((p :: rest).take 500)).1 q.id =
            some (upsertWrite now s q) := by
        intro q hq
        exact commitBatch_mem
          (by rw [stageChunk_fst_map]; exact hndc)
          (stageChunk_mem now s hq) s
      have hs'_not : ∀ id, id ∉ ((p :: rest).take 500).map Product.id →
          commitBatch s (stageChunk now s ((p :: rest).take 500)).1 id = s id := by
        intro id hid
        exact commitBatch_not_mem (by rw [stageChunk_fst_map]; exact hid) s
      have hlen' : ((p :: rest).drop 500).length ≤ n := by
        simp only [List.length_drop, List.length_cons] at hlen ⊢
        omega
      obtain ⟨ih1, ih2, ih3, ih4⟩ :=
        ih (commitBatch s (stageChunk now s ((p :: rest).take 500)).1)
          ((p :: rest).drop 500) hlen' hndd
      have hagree : ∀ q ∈ (p :: rest).drop 500,
          commitBatch s (stageChunk now s ((p :: rest).take 500)).1 q.id =
            s q.id := by
        intro q hq
        exact hs'_not q.id
          (fun hin => hdisj hin (List.mem_map_of_mem Product.id hq))
      rw [upsertProducts_cons_eq]
      refine ⟨?_, ?_, ?_, ?_⟩
      · intro q hq
        rw [hsplit] at hq
        rcases List.mem_append.mp hq with hqc | hqd
        · have hnotd : q.id ∉ ((p :: rest).drop 500).map Product.id :=
            hdisj (List.mem_map_of_mem Product.id hqc)
          show (upsertProducts now _ _).1 q.id = _
          rw [ih2 q.id hnotd]
          exact hs'_mem q hqc
        · show (upsertProducts now _ _).1 q.id = _
          rw [ih1 q hqd]
          rw [upsertWrite_congr now q (hagree q hqd)]
      · intro id hid
        rw [hmapsplit] at hid
        simp only [List.mem_append, not_or] at hid
        show (upsertProducts now _ _).1 id = s id
        rw [ih2 id hid.2]
        exact hs'_not id hid.1
      · show (stageChunk now s _).2.1 + (upsertProducts now _ _).2.1 = _
        rw [(stageChunk_counts now s ((p :: rest).take 500)).1, ih3]
        have hfc : ((p :: rest).drop 500).filter
            (fun q => (commitBatch s
              (stageChunk now s ((p :: rest).take 500)).1 q.id).isNone) =
            ((p :: rest).drop 500).filter (fun q => (s q.id).isNone) :=
          List.filter_congr (fun q hq => by rw [hagree q hq])
        rw [hfc]
        conv_rhs => rw [hsplit]
        rw [List.filter_append, List.length_append]
      · show (stageChunk now s _).2.2 + (upsertProducts now _ _).2.2 = _
        rw [(stageChunk_counts now s ((p :: rest).take 500)).2, ih4]
        have hfc : ((p :: rest).drop 500).filter
            (fun q => (commitBatch s
              (stageChunk now s ((p :: rest).take 500)).1 q.id).isSome) =
            ((p :: rest).drop 500).filter (fun q => (s q.id).isSome) :=
          List.filter_congr (fun q hq => by rw [hagree q hq])
        rw [hfc]
        conv_rhs => rw [hsplit]
        rw [List.filter_append, List.length_append]

end Alko

namespace Alko

/-- C4.  In a batch upsert of items with pairwise-distinct ids: every
item whose id already exists is rewritten with the stored `createdAt`
and a fresh `updatedAt` and is counted as updated (even when no field
differs); every new id gets both timestamps set and is counted as
added; and a second run over the unchanged input at a later time `t2`
reports `added = 0` and, for every item, advances `updatedAt` from `t1`
to `t2` while leaving `createdAt` unchanged. -/
theorem claim_c4_upsert (now t1 t2 : Nat) (s0 : ProductStore)
    (ps : List Product) (hnd : (ps.map Product.id).Nodup) (ht : t1 < t2) :
    (∀ p ∈ ps, ∀ old, s0 p.id = some old →
      (upsertProducts now s0 ps).1 p.id =
        some { p with createdAt := old.createdAt, updatedAt := now }) ∧
    (∀ p ∈ ps, s0 p.id = none →
      (upsertProducts now s0 ps).1 p.id =
        some { p with createdAt := now, updatedAt := now }) ∧
    (upsertProducts now s0 ps).2.2 =
      (ps.filter (fun p => (s0 p.id).isSome)).length ∧
    (upsertProducts now s0 ps).2.1 =
      (ps.filter (fun p => (s0 p.id).isNone)).length ∧
    (upsertProducts t2 (upsertProducts t1 s0 ps).1 ps).2.1 = 0 ∧
    (∀ p ∈ ps, ∃ q1 q2,
      (upsertProducts t1 s0 ps).1 p.id = some q1 ∧
      (upsertProducts t2 (upsertProducts t1 s0 ps).1 ps).1 p.id = some q2 ∧
      q2.createdAt = q1.createdAt ∧ q1.updatedAt = t1 ∧ q2.updatedAt = t2 ∧
      q1.updatedAt < q2.updatedAt) := by
  obtain ⟨h1, h2, h3, h4⟩ :=
    upsertProducts_spec now ps.length s0 ps le_rfl hnd
  obtain ⟨g1, g2, g3, g4⟩ :=
    upsertProducts_spec t1 ps.length s0 ps le_rfl hnd
  obtain ⟨k1, k2, k3, k4⟩ :=
    upsertProducts_spec t2 ps.length (upsertProducts t1 s0 ps).1 ps le_rfl hnd
  refine ⟨?_, ?_, h4, h3, ?_, ?_⟩
  · intro p hp old hold
    rw [h1 p hp]
    simp only [upsertWrite, hold]
  · intro p hp hnone
    rw [h1 p hp]
    simp only [upsertWrite, hnone]
  · rw [k3]
    apply List.length_eq_zero.mpr
    apply List.filter_eq_nil_iff.mpr
    intro p hp
    rw [g1 p hp]
    simp
  · intro p hp
    refine ⟨upsertWrite t1 s0 p, upsertWrite t2 (upsertProducts t1 s0 ps).1 p,
      g1 p hp, k1 p hp, ?_, upsertWrite_updatedAt t1 s0 p,
      upsertWrite_updatedAt t2 (upsertProducts t1 s0 ps).1 p, ?_⟩
    · simp only [upsertWrite, g1 p hp]
    · rw [upsertWrite_updatedAt, upsertWrite_updatedAt]
      exact ht

/-- A concrete product for C4's witness. -/
def c4Product : Product :=
  { baseProduct with
    id := js ("906458"), name := js ("Fair") }

/-- Witness for C4 at the singleton input against the empty store, with
run times 1 and 2 (and a standalone run at time 5). -/
theorem claim_c4_upsert_witness :
    (∀ p ∈ [c4Product], ∀ old, (fun _ => (none : Option Product)) p.id = some old →
      (upsertProducts 5 (fun _ => none) [c4Product]).1 p.id =
        some { p with createdAt := old.createdAt, updatedAt := 5 }) ∧
    (∀ p ∈ [c4Product], (fun _ => (none : Option Product)) p.id = none →
      (upsertProducts 5 (fun _ => none) [c4Product]).1 p.id =
        some { p with createdAt := 5, updatedAt := 5 }) ∧
    (upsertProducts 5 (fun _ => none) [c4Product]).2.2 =
      ([c4Product].filter
        (fun p => ((fun _ => (none : Option Product)) p.id).isSome)).length ∧
    (upsertProducts 5 (fun _ => none) [c4Product]).2.1 =
      ([c4Product].filter
        (fun p => ((fun _ => (none : Option Product)) p.id).isNone)).length ∧
    (upsertProducts 2 (upsertProducts 1 (fun _ => none) [c4Product]).1
      [c4Product]).2.1 = 0 ∧
    (∀ p ∈ [c4Product], ∃ q1 q2,
      (upsertProducts 1 (fun _ => none) [c4Product]).1 p.id = some q1 ∧
      (upsertProducts 2 (upsertProducts 1 (fun _ => none) [c4Product]).1
        [c4Product]).1 p.id = some q2 ∧
      q2.createdAt = q1.createdAt ∧ q1.updatedAt = 1 ∧ q2.updatedAt = 2 ∧
      q1.updatedAt < q2.updatedAt) :=
  claim_c4_upsert 5 1 2 (fun _ => none) [c4Product] (by simp) (by omega)

end Alko

namespace Alko

/-- What a caller of `ensureData` observes: the fast path (already
checked, resolve immediately) or awaiting the promise with the given
identity. -/
inductive CallResult
  | fastPath
  | awaited (promiseId : Nat)
deriving DecidableEq, Repr

/-- The module-level bootstrap state of `src/services/data-sync.ts`:
`seedDataChecked` and `seedDataLoading` (the in-flight promise,
identified by a serial number), instrumented with the number of load
bodies ever started. -/
structure BootState where
  seedDataChecked : Bool
  seedDataLoading : Option Nat
  nextPromiseId : Nat
  bodiesStarted : Nat
deriving DecidableEq, Repr

/-- The state at process start: nothing checked, nothing loading. -/
def initialBootState : BootState :=
  { seedDataChecked := false, seedDataLoading := none, nextPromiseId := 0,
    bodiesStarted := 0 }

/-- One invocation of `ensureData()` (data-sync.ts, lines 276–350), up
to the point where the caller starts awaiting: return immediately when
checked; await the existing promise when one is loading; otherwise
create the load body, register it in `seedDataLoading`, and await it.
In the single-threaded event loop the flag checks and the registration
happen atomically: the body's synchronous prefix reaches its first
`await` without touching the flags. -/
def ensureDataCall (s : BootState) : BootState × CallResult :=
  if s.seedDataChecked then (s, .fastPath)
  else
    match s.seedDataLoading with
    | some pid => (s, .awaited pid)
    | none =>
      ({ s with
          seedDataLoading := some s.nextPromiseId,
          nextPromiseId := s.nextPromiseId + 1,
          bodiesStarted := s.bodiesStarted + 1 },
        .awaited s.nextPromiseId)

/-- Whether the load body finished normally or threw. -/
inductive LoadOutcome
  | success
  | failure
deriving DecidableEq, Repr

/-- The in-flight load body completing.  Every return path of the `try`
block sets `seedDataChecked = true`; the `catch` block also sets it
before rethrowing; the `finally` block clears `seedDataLoading` — so
the state change is the same for success and failure. -/
def loadComplete (o : LoadOutcome) (s : BootState) : BootState :=
  match o with
  | .success => { s with seedDataChecked := true, seedDataLoading := none }
  | .failure => { s with seedDataChecked := true, seedDataLoading := none }

/-- How many times one load body reads the bundled seed file: exactly
once when the store is empty and the seed data file is present and
non-empty, zero times otherwise (the body returns early in the other
branches). -/
def seedBundleLoadsPerBody (storeEmpty bundlePresent bundleNonEmpty : Bool) :
    Nat :=
  if storeEmpty && bundlePresent && bundleNonEmpty then 1 else 0

/-- Performs `n` back-to-back invocations of `ensureData` (all arriving before
anything else runs), collecting each caller's observation. -/
def callsN : Nat → BootState → BootState × List CallResult
  | 0, s => (s, [])
  | n + 1, s =>
    let step := ensureDataCall s
    let rest := callsN n step.1
    (rest.1, step.2 :: rest.2)

/-- The state right after the first caller has started the load. -/
def loadingBootState : BootState :=
  { seedDataChecked := false, seedDataLoading := some 0, nextPromiseId := 1,
    bodiesStarted := 1 }

theorem ensureDataCall_initial :
    ensureDataCall initialBootState = (loadingBootState, CallResult.awaited 0) :=
  rfl

theorem ensureDataCall_loading :
    ensureDataCall loadingBootState = (loadingBootState, CallResult.awaited 0) :=
  rfl

theorem callsN_loading (n : Nat) :
    callsN n loadingBootState =
      (loadingBootState, List.replicate n (CallResult.awaited 0)) := by
  induction n with
  | zero => rfl
  | succ n ih => simp [callsN, ensureDataCall_loading, ih,
      List.replicate_succ]

theorem callsN_checked (n : Nat) (s : BootState)
    (h : s.seedDataChecked = true) :
    callsN n s = (s, List.replicate n CallResult.fastPath) := by
  induction n with
  | zero => rfl
  | succ n ih => simp [callsN, ensureDataCall, h, ih, List.replicate_succ]

/-- C5.  N concurrent `ensureData` invocations against an empty store
start exactly one load body (hence exactly one read of the seed
bundle), all N callers await that same promise (id 0), the body's
completion — successful or thrown — marks the process checked, and
every later invocation takes the fast path without starting another
body. -/
theorem claim_c5_single_flight (N : Nat) (hN : 1 ≤ N) (o : LoadOutcome) :
    (callsN N initialBootState).1.bodiesStarted = 1 ∧
    (∀ r ∈ (callsN N initialBootState).2, r = CallResult.awaited 0) ∧
    seedBundleLoadsPerBody true true true *
      (callsN N initialBootState).1.bodiesStarted = 1 ∧
    (loadComplete o (callsN N initialBootState).1).seedDataChecked = true ∧
    (∀ M : Nat,
      (callsN M (loadComplete o (callsN N initialBootState).1)).1.bodiesStarted
        = 1 ∧
      ∀ r ∈ (callsN M (loadComplete o (callsN N initialBootState).1)).2,
        r = CallResult.fastPath) := by
  obtain ⟨n, rfl⟩ : ∃ n, N = n + 1 := ⟨N - 1, by omega⟩
  have hfirst : callsN (n + 1) initialBootState =
      (loadingBootState,
        CallResult.awaited 0 :: List.replicate n (CallResult.awaited 0)) := by
    simp [callsN, ensureDataCall_initial, callsN_loading]
  rw [hfirst]
  have hcomplete : loadComplete o loadingBootState =
      { seedDataChecked := true, seedDataLoading := none, nextPromiseId := 1,
        bodiesStarted := 1 } := by
    cases o <;> rfl
  refine ⟨rfl, ?_, rfl, ?_, ?_⟩
  · intro r hr
    rcases List.mem_cons.mp hr with rfl | hr
    · rfl
    · exact List.eq_of_mem_replicate hr
  · rw [hcomplete]
  · intro M
    rw [hcomplete, callsN_checked M _ rfl]
    exact ⟨rfl, fun r hr => List.eq_of_mem_replicate hr⟩

/-- Witness for C5 at three concurrent callers and a failing first
attempt. -/
theorem claim_c5_single_flight_witness :
    (callsN 3 initialBootState).1.bodiesStarted = 1 ∧
    (∀ r ∈ (callsN 3 initialBootState).2, r = CallResult.awaited 0) ∧
    seedBundleLoadsPerBody true true true *
      (callsN 3 initialBootState).1.bodiesStarted = 1 ∧
    (loadComplete LoadOutcome.failure
      (callsN 3 initialBootState).1).seedDataChecked = true ∧
    (∀ M : Nat,
      (callsN M (loadComplete LoadOutcome.failure
        (callsN 3 initialBootState).1)).1.bodiesStarted = 1 ∧
      ∀ r ∈ (callsN M (loadComplete LoadOutcome.failure
        (callsN 3 initialBootState).1)).2,
        r = CallResult.fastPath) :=
  claim_c5_single_flight 3 (by omega) LoadOutcome.failure

end Alko

namespace Alko

/-- Availability status, derived from quantity thresholds. -/
inductive AvailabilityStatus
  | in_stock
  | low_stock
  | out_of_stock
deriving DecidableEq, Repr

/-- A per-store availability record (src/types, `StoreAvailability`),
restricted to the fields the modelled operations consult (`storeLink`
and `lastUpdated` are carried through uninspected and elided). -/
structure StoreAvailability where
  id : JStr
  productId : JStr
  storeId : JStr
  storeName : JStr
  quantity : Nat
  status : AvailabilityStatus
  checkedAt : Nat
deriving DecidableEq, Repr

/-- The result shape of the availability operations. -/
structure AvailabilityResult where
  productId : JStr
  productName : JStr
  stores : List StoreAvailability
  checkedAt : Nat
  fromCache : Bool
deriving DecidableEq, Repr

/-- Models `AlkoScraper.getCachedAvailability` (src/services/scraper.ts, lines
325–350): return the in-memory cache entry tagged `fromCache`; else, if
the durable store holds records for the product, wrap them (taking
`checkedAt` from the first record and using the product id as the
display name); else `null`.  `mem` is the LRU entry for the product and
`fs` the `availability` collection query result; the branch that
re-populates the memory cache is a write not visible in the returned
value. -/
def getCachedAvailability (mem : Option AvailabilityResult)
    (fs : List StoreAvailability) (productId : JStr) :
    Option AvailabilityResult :=
  match mem with
  | some cached => some { cached with fromCache := true }
  | none =>
    match fs with
    | [] => none
    | first :: rest =>
      some { productId := productId, productName := productId,
             stores := first :: rest, checkedAt := first.checkedAt,
             fromCache := true }

/-- The city filter applied on the cache-hit and successful-scrape
paths of `getAvailability` (src/tools/get-availability.ts, lines 41–48
and 60–67): keep the stores whose name contains the city as a
case-insensitive substring. -/
def filterStoresByCity (city : Option JStr)
    (stores : List StoreAvailability) : List StoreAvailability :=
  match city with
  | none => stores
  | some c =>
    stores.filter (fun s => includes (jsToLower s.storeName) (jsToLower c))

/-- The `try`/`catch` tail of the `getAvailability` tool (lines 53–81):
scrape fresh data and city-filter it; on a scrape error, fall back to
the cached/persisted record — without applying the city filter — and
to `null` when none exists.  `scrape` is the outcome of
`scraper.getProductAvailability`. -/
def getAvailabilityScrapePath (productId : JStr) (city : Option JStr)
    (mem : Option AvailabilityResult) (fs : List StoreAvailability)
    (scrape : Except Unit AvailabilityResult) :
    Except Unit (Option AvailabilityResult) :=
  match scrape with
  | .ok result =>
    .ok (some { result with stores := filterStoresByCity city result.stores })
  | .error _ => .ok (getCachedAvailability mem fs productId)

/-- The `getAvailability` tool (src/tools/get-availability.ts, lines
25–82), after `ensureData` and the product-name lookup: without
`forceRefresh`, a cached record is returned city-filtered; otherwise
the scrape path runs.  The result is `Except` over the tool's own
possible throw — the body catches the scrape error, so every branch is
`.ok`. -/
def getAvailabilityTool (productId : JStr) (city : Option JStr)
    (forceRefresh : Bool) (mem : Option AvailabilityResult)
    (fs : List StoreAvailability)
    (scrape : Except Unit AvailabilityResult) :
    Except Unit (Option AvailabilityResult) :=
  if forceRefresh then getAvailabilityScrapePath productId city mem fs scrape
  else
    match getCachedAvailability mem fs productId with
    | some cached =>
      .ok (some { cached with stores := filterStoresByCity city cached.stores })
    | none => getAvailabilityScrapePath productId city mem fs scrape

/-- C6.  When the fresh scrape raises, the availability tool never
propagates the error: the call still returns a value; on the scrape
path it returns exactly the last persisted record (in-memory or
durable), and that record is absent exactly when neither tier holds
one — so `None` is returned only when no record exists. -/
theorem claim_c6_error_fallback :
    (∀ (productId : JStr) (city : Option JStr) (forceRefresh : Bool)
      (mem : Option AvailabilityResult) (fs : List StoreAvailability),
      ∃ v, getAvailabilityTool productId city forceRefresh mem fs
        (Except.error ()) = Except.ok v) ∧
    (∀ (productId : JStr) (city : Option JStr)
      (mem : Option AvailabilityResult) (fs : List StoreAvailability),
      getAvailabilityTool productId city true mem fs (Except.error ()) =
        Except.ok (getCachedAvailability mem fs productId)) ∧
    (∀ (productId : JStr) (city : Option JStr),
      getAvailabilityTool productId city false none [] (Except.error ()) =
        Except.ok none) ∧
    (∀ (productId : JStr) (mem : Option AvailabilityResult)
      (fs : List StoreAvailability),
      getCachedAvailability mem fs productId = none ↔
        (mem = none ∧ fs = [])) := by
  refine ⟨?_, ?_, ?_, ?_⟩
  · intro productId city forceRefresh mem fs
    cases forceRefresh with
    | true => exact ⟨getCachedAvailability mem fs productId, rfl⟩
    | false =>
      cases hv : getCachedAvailability mem fs productId with
      | some cached =>
        exact ⟨some { cached with
          stores := filterStoresByCity city cached.stores }, by
            simp [getAvailabilityTool, hv]⟩
      | none =>
        refine ⟨getCachedAvailability mem fs productId, ?_⟩
        simp [getAvailabilityTool, hv, getAvailabilityScrapePath]
  · intro productId city mem fs
    rfl
  · intro productId city
    rfl
  · intro productId mem fs
    cases mem with
    | some cached => simp [getCachedAvailability]
    | none => cases fs <;> simp [getCachedAvailability]

end Alko

namespace Alko

/-- A persisted availability record at a Tampere store, used by C10's
concrete scenario. -/
def c10TampereStore : StoreAvailability :=
  { id := js ("906458_2101"), productId := js ("906458"), storeId := js ("2101"),
    storeName := js ("Alko Tampere Keskusta"), quantity := 7,
    status := AvailabilityStatus.in_stock, checkedAt := 10 }

/-- The cached availability result holding only the Tampere store. -/
def c10CachedResult : AvailabilityResult :=
  { productId := js ("906458"), productName := js ("906458"),
    stores := [c10TampereStore], checkedAt := 10, fromCache := false }

/-- C10.  With a city filter, the cache-hit and successful-scrape paths
return exactly the stores whose name contains the city as a
case-insensitive substring, but the error-fallback path returns the
persisted record with no city filtering; concretely, a "Helsinki"
query whose scrape fails returns the cached record still holding the
Tampere store, whose name does not contain "helsinki". -/
theorem claim_c10_fallback_unfiltered :
    (∀ (productId city : JStr) (cached : AvailabilityResult)
      (fs : List StoreAvailability) (scrape : Except Unit AvailabilityResult),
      getAvailabilityTool productId (some city) false (some cached) fs scrape =
        Except.ok (some { cached with
          fromCache := true,
          stores := cached.stores.filter
            (fun s => includes (jsToLower s.storeName) (jsToLower city)) })) ∧
    (∀ (productId city : JStr) (mem : Option AvailabilityResult)
      (fs : List StoreAvailability) (result : AvailabilityResult),
      getAvailabilityTool productId (some city) true mem fs
        (Except.ok result) =
        Except.ok (some { result with
          stores := result.stores.filter
            (fun s => includes (jsToLower s.storeName) (jsToLower city)) })) ∧
    (∀ (city : JStr) (stores : List StoreAvailability) (s : StoreAvailability),
      s ∈ filterStoresByCity (some city) stores ↔
        (s ∈ stores ∧ includes (jsToLower s.storeName) (jsToLower city) = true)) ∧
    (∀ (productId city : JStr) (mem : Option AvailabilityResult)
      (fs : List StoreAvailability),
      getAvailabilityTool productId (some city) true mem fs
        (Except.error ()) = Except.ok (getCachedAvailability mem fs productId)) ∧
    (getAvailabilityTool (js ("906458")) (some (js ("Helsinki"))) true
        (some c10CachedResult) [] (Except.error ()) =
      Except.ok (some { c10CachedResult with fromCache := true }) ∧
      includes (jsToLower c10TampereStore.storeName)
        (jsToLower (js ("Helsinki"))) = false) := by
  refine ⟨?_, ?_, ?_, ?_, ?_⟩
  · intro productId city cached fs scrape
    rfl
  · intro productId city mem fs result
    rfl
  · intro city stores s
    simp [filterStoresByCity, List.mem_filter]
  · intro productId city mem fs
    rfl
  · exact ⟨rfl, by decide⟩

end Alko

namespace Alko

/-- A calendar date; `isStoreDataStale` reads only the year/month/day
of the store's update timestamp, so the timestamp is modelled by its
calendar date. -/
structure SimpleDate where
  year : Nat
  month : Nat
  day : Nat
deriving DecidableEq, Repr

/-- The `Store` entity, restricted to the fields the store-hours query
consults (`coordinates`, `storeLink`, `phone` and `email` are carried
through uninspected and elided). -/
structure Store where
  id : JStr
  name : JStr
  city : JStr
  address : JStr
  postalCode : JStr
  openingHoursToday : Option JStr
  openingHoursTomorrow : Option JStr
  updatedAt : Option SimpleDate
deriving DecidableEq, Repr

/-- Models `isStoreDataStale` (src/tools/get-store-hours.ts, lines 339–356): a
store is stale when it has no update timestamp or when the timestamp's
calendar day differs from today in year, month or day. -/
def isStoreDataStale (store : Store) (today : SimpleDate) : Bool :=
  match store.updatedAt with
  | none => true
  | some d =>
    (d.year != today.year) || (d.month != today.month) || (d.day != today.day)

/-- The numeric value of a decimal digit character (`parseInt` on the
captured digits). -/
def digitVal (c : Char) : Nat := c.toNat - 48

/-- The regex `/(\d{1,2})-(\d{1,2})/` attempted at the head of the
string: a greedy one-or-two digit open hour, a dash, and a greedy
one-or-two digit close hour, with the regex engine's backtracking from
two digits to one on the first group. -/
def matchHoursAt (l : List Char) : Option (Nat × Nat) :=
  match l with
  | [] => none
  | a :: rest =>
    if a.isDigit then
      match rest with
      | [] => none
      | b :: rest2 =>
        if b.isDigit then
          match rest2 with
          | '-' :: c :: rest3 =>
            if c.isDigit then
              some (digitVal a * 10 + digitVal b,
                match rest3 with
                | d :: _ =>
                  if d.isDigit then digitVal c * 10 + digitVal d
                  else digitVal c
                | [] => digitVal c)
            else none
          | _ => none
        else if b = '-' then
          match rest2 with
          | [] => none
          | c :: rest3 =>
            if c.isDigit then
              some (digitVal a,
                match rest3 with
                | d :: _ =>
                  if d.isDigit then digitVal c * 10 + digitVal d
                  else digitVal c
                | [] => digitVal c)
            else none
        else none
    else none

/-- The first match of `/(\d{1,2})-(\d{1,2})/` anywhere in the string
(earliest starting position wins). -/
def findHoursRange : List Char → Option (Nat × Nat)
  | [] => none
  | c :: rest =>
    match matchHoursAt (c :: rest) with
    | some r => some r
    | none => findHoursRange rest

/-- Models `isStoreOpenNow` (get-store-hours.ts, lines 318–333): closed for no
hours or "SULJETTU", otherwise open exactly when the current hour lies
in `[openHour, closeHour)` of the first matched range. -/
def isStoreOpenNow (openingHours : Option JStr) (currentHour : Nat) : Bool :=
  match openingHours with
  | none => false
  | some h =>
    if h = js ("SULJETTU") then false
    else
      match findHoursRange h with
      | none => false
      | some r => decide (r.1 ≤ currentHour) && decide (currentHour < r.2)

/-- One row of the store-hours query result. -/
structure StoreHoursEntry where
  id : JStr
  name : JStr
  city : JStr
  address : JStr
  openingHoursToday : Option JStr
  openingHoursTomorrow : Option JStr
  isOpenNow : Bool
deriving DecidableEq, Repr

/-- The result mapping of `getStoreHours` (get-store-hours.ts, lines
454–467): a stale store's hour fields are nulled and its `isOpenNow`
is forced to `false`; a fresh store's hours pass through and
`isOpenNow` is computed from today's hours. -/
def mapStoreHours (today : SimpleDate) (currentHour : Nat)
    (store : Store) : StoreHoursEntry :=
  let storeIsStale := isStoreDataStale store today
  { id := store.id, name := store.name, city := store.city,
    address := store.address ++ js (", ") ++ store.postalCode,
    openingHoursToday :=
      if storeIsStale then none else store.openingHoursToday,
    openingHoursTomorrow :=
      if storeIsStale then none else store.openingHoursTomorrow,
    isOpenNow :=
      if storeIsStale then false
      else isStoreOpenNow store.openingHoursToday currentHour }

/-- C7.  A store whose update timestamp falls on a calendar day other
than today is reported with `isOpenNow = false` and both opening-hours
fields resolved to the unknown value (`null`, dropped from the
serialized response); once a re-scrape stamps the store with today's
date, the same store's hours pass through and `isOpenNow` is computed
from them again. -/
theorem claim_c7_stale_hours (store : Store) (today : SimpleDate)
    (currentHour : Nat) (d : SimpleDate) (hupd : store.updatedAt = some d)
    (hne : d ≠ today) :
    (mapStoreHours today currentHour store).isOpenNow = false ∧
    (mapStoreHours today currentHour store).openingHoursToday = none ∧
    (mapStoreHours today currentHour store).openingHoursTomorrow = none ∧
    (mapStoreHours today currentHour
      { store with updatedAt := some today }).openingHoursToday =
        store.openingHoursToday ∧
    (mapStoreHours today currentHour
      { store with updatedAt := some today }).openingHoursTomorrow =
        store.openingHoursTomorrow ∧
    (mapStoreHours today currentHour
      { store with updatedAt := some today }).isOpenNow =
        isStoreOpenNow store.openingHoursToday currentHour := by
  have hstale : isStoreDataStale store today = true := by
    obtain ⟨dy, dm, dd⟩ := d
    obtain ⟨ty, tm, td⟩ := today
    simp only [isStoreDataStale, hupd]
    by_cases h1 : dy = ty <;> by_cases h2 : dm = tm <;>
      by_cases h3 : dd = td <;> simp [h1, h2, h3]
    exact absurd (by rw [h1, h2, h3]) hne
  have hfresh : isStoreDataStale { store with updatedAt := some today }
      today = false := by
    simp [isStoreDataStale]
  refine ⟨?_, ?_, ?_, ?_, ?_, ?_⟩ <;>
    simp [mapStoreHours, hstale, hfresh]

/-- A store whose hours were captured yesterday (2026-10-11). -/
def c7YesterdayStore : Store :=
  { id := js ("2101"), name := js ("Alko Tampere Keskusta"),
    city := js ("Tampere"), address := js ("Hatanpään valtatie 1"),
    postalCode := js ("33100"),
    openingHoursToday := some (js ("9-21")),
    openingHoursTomorrow := some (js ("9-18")),
    updatedAt := some ⟨2026, 10, 11⟩ }

/-- Witness for C7: hours captured on 2026-10-11 viewed on 2026-10-12. -/
theorem claim_c7_stale_hours_witness :
    (mapStoreHours ⟨2026, 10, 12⟩ 14 c7YesterdayStore).isOpenNow = false ∧
    (mapStoreHours ⟨2026, 10, 12⟩ 14 c7YesterdayStore).openingHoursToday
      = none ∧
    (mapStoreHours ⟨2026, 10, 12⟩ 14 c7YesterdayStore).openingHoursTomorrow
      = none ∧
    (mapStoreHours ⟨2026, 10, 12⟩ 14
      { c7YesterdayStore with updatedAt := some ⟨2026, 10, 12⟩ }).openingHoursToday
        = c7YesterdayStore.openingHoursToday ∧
    (mapStoreHours ⟨2026, 10, 12⟩ 14
      { c7YesterdayStore with updatedAt := some ⟨2026, 10, 12⟩ }).openingHoursTomorrow
        = c7YesterdayStore.openingHoursTomorrow ∧
    (mapStoreHours ⟨2026, 10, 12⟩ 14
      { c7YesterdayStore with updatedAt := some ⟨2026, 10, 12⟩ }).isOpenNow
        = isStoreOpenNow c7YesterdayStore.openingHoursToday 14 :=
  claim_c7_stale_hours c7YesterdayStore ⟨2026, 10, 12⟩ 14 ⟨2026, 10, 11⟩
    rfl (by decide)

end Alko

namespace Alko

/-- The spreadsheet-resource response, restricted to the fields
`downloadPriceList` consults (`statusText` and headers other than the
content type are elided; a missing content-type header is the empty
string, as in `headers.get('content-type') || ''`). -/
structure HttpResponse where
  ok : Bool
  status : Nat
  contentType : JStr
  body : List Nat
deriving DecidableEq, Repr

/-- The acceptance logic of `DataSyncService.downloadPriceList`
(src/services/data-sync.ts, lines 30–75), after the two fetches: a
non-ok status throws, a content type containing "text/html" throws as
a blocked download, and anything else is returned as the snapshot
body.  The session-establishing homepage fetch and its cookies do not
affect acceptance and are elided. -/
def downloadPriceList (excelResponse : HttpResponse) :
    Except JStr (List Nat) :=
  if !excelResponse.ok then
    .error (js ("Failed to download price list"))
  else if includes excelResponse.contentType (js ("text/html")) then
    .error (js ("Received HTML instead of Excel file - likely blocked by bot protection"))
  else
    .ok excelResponse.body

/-- The spreadsheet media types named in the request's `Accept`
header. -/
def isSpreadsheetContentType (ct : JStr) : Bool :=
  includes ct
    (js ("application/vnd.openxmlformats-officedocument.spreadsheetml.sheet"))
  || includes ct (js ("application/vnd.ms-excel"))

/-- C8 (counterexample).  An ok response whose content type is
`application/json` — not a spreadsheet type — is returned as a
successful snapshot, refuting the claim that every non-spreadsheet
content type fails the download. -/
theorem claim_c8_counterexample :
    isSpreadsheetContentType (js ("application/json")) = false ∧
    downloadPriceList
      { ok := true, status := 200, contentType := js ("application/json"),
        body := [1, 2, 3] } = Except.ok [1, 2, 3] := by
  refine ⟨by decide, ?_⟩
  rfl

/-- C8 (amended).  The download fails exactly when the response status
is not ok or the content type contains "text/html"; only the
HTML-block case is treated as a blocked download, and other
non-spreadsheet content types are accepted as successful results. -/
theorem claim_c8_amended (r : HttpResponse) :
    (∃ msg, downloadPriceList r = Except.error msg) ↔
      (r.ok = false ∨ includes r.contentType (js ("text/html")) = true) := by
  unfold downloadPriceList
  cases hok : r.ok with
  | false => simp
  | true =>
    by_cases hct : includes r.contentType (js ("text/html")) = true
    · simp [hct]
    · simp [hct]

/-- The smokiness widget of a product page: `none` when the page has no
`.smokiness` container, otherwise the text of `.smokiness-label` (if
any) and the class lists of the widget's icon elements. -/
def SmokinessWidget : Type := Option (Option JStr × List (List JStr))

/-- The smokiness extraction of `AlkoScraper.scrapeProductDetails`
(src/services/scraper.ts, lines 418–431): no container leaves both
fields null; otherwise the label is read and `smokiness` is set to the
number of elements carrying both the `smokiness-icon` and `smokey`
classes — the raw `querySelectorAll(...).length`, with no clamp. -/
def scrapeSmokiness (container : SmokinessWidget) :
    Option Nat × Option JStr :=
  match container with
  | none => (none, none)
  | some (label, icons) =>
    (some ((icons.filter (fun cs =>
        cs.contains (js ("smokiness-icon")) && cs.contains (js ("smokey")))).length),
     label)

/-- The smokiness component of the enriched-field merge in `getProduct`
(src/tools/get-product.ts, lines 68–87): the scraped value is merged
into the product and persisted unchanged, with no validation. -/
def persistEnrichedSmokiness (p : Product) (scrapedSmokiness : Option Nat) :
    Product :=
  { p with smokiness := scrapedSmokiness }

/-- A smokiness widget carrying five active icons. -/
def c9FiveIconWidget : SmokinessWidget :=
  some (some (js ("Voimakkaan savuinen")),
    List.replicate 5 [js ("smokiness-icon"), js ("smokey")])

/-- C9 (code at the failing input).  On a page whose smokiness widget
holds five active icon markers, the scrape computes `smokiness = 5`
and the enrichment merge persists 5 unchanged — outside the documented
0–4 range, which nothing in the code enforces. -/
theorem claim_c9_smokiness_unclamped :
    (scrapeSmokiness c9FiveIconWidget).1 = some 5 ∧
    (persistEnrichedSmokiness baseProduct
      (scrapeSmokiness c9FiveIconWidget).1).smokiness = some 5 ∧
    ¬(5 : Nat) ≤ 4 := by
  decide

end Alko
